import Mathlib

/-!
Shallow embedding of the platform-independent dispatch engine of the
`watchdog` repository (`src/watchdog/observers/api.py`), together with a
model of the pieces of the repository the engine imports but whose source
is not included here (`watchdog.utils.bricks.SkipRepeatsQueue`,
`watchdog.utils.BaseThread`), which are modelled from the specification.

Conventions of the embedding:
* handler objects are represented by natural-number identities;
* a Python `set` of handlers is represented by a strictly sorted,
  duplicate-free list of those identities (CPython iterates a set of small
  non-negative integers in increasing numeric order, and set iteration
  order is in any case not insertion order);
* a Python `dict` is represented by an association list whose update
  operation replaces the entry for an existing key in place and appends a
  new key at the end (CPython dicts iterate in insertion order);
* a Python `frozenset` of event-kind tags is represented by the strictly
  sorted duplicate-free list of the tags;
* exceptions are represented explicitly: an operation returns an `ok` or
  `raised` outcome, each carrying the state of the observer after the
  operation (`raised s` means the exception propagated with state `s`).
-/

namespace Watchdog

/-- A path argument as Python sees it: either a `pathlib.Path` object or a
plain string.  A `Path` object is identified with its string rendering. -/
inductive PyPath where
  | pathObj (s : String)
  | str (s : String)
deriving DecidableEq

/-- Insert a natural number into a strictly sorted duplicate-free list,
keeping it strictly sorted and duplicate-free.  This is the canonical-form
builder for Python `set`/`frozenset` values of small naturals. -/
def fsInsert (x : Nat) : List Nat → List Nat
  | [] => [x]
  | y :: ys =>
    if x = y then y :: ys
    else if x < y then x :: y :: ys
    else y :: fsInsert x ys

/-- `frozenset(l)`: the canonical (strictly sorted, duplicate-free)
representation of the set of elements of `l`. -/
def frozenset (l : List Nat) : List Nat := l.foldr fsInsert []

/-- Python `set.add` semantics on the canonical representation. -/
def setAdd {α : Type} [DecidableEq α] (x : α) (s : List α) : List α :=
  if x ∈ s then s else s ++ [x]

/-- Python `set.remove`/`set.discard` effect on the stored elements: a set
holds at most one copy of an element, so removal drops every occurrence of
it from the representing list. -/
def setRemove {α : Type} [DecidableEq α] (x : α) (s : List α) : List α :=
  s.filter (fun y => decide (y ≠ x))

/-- Python `dict` lookup (`m.get(k)` / `m[k]` before raising). -/
def dget {κ β : Type} [DecidableEq κ] : List (κ × β) → κ → Option β
  | [], _ => none
  | (k, v) :: rest, q => if k = q then some v else dget rest q

/-- Python `dict` assignment `m[k] = v`. -/
def dput {κ β : Type} [DecidableEq κ] : List (κ × β) → κ → β → List (κ × β)
  | [], q, b => [(q, b)]
  | (k, v) :: rest, q, b => if k = q then (q, b) :: rest else (k, v) :: dput rest q b

/-- Python `del m[k]` effect on the entries (a dict holds at most one entry
per key, so deletion drops every entry with that key). -/
def ddel {κ β : Type} [DecidableEq κ] (m : List (κ × β)) (q : κ) : List (κ × β) :=
  m.filter (fun p => decide (p.1 ≠ q))

/-- `ObservedWatch` (api.py:39-89): an immutable watch descriptor with the
normalisations performed by `__init__` already applied (see
`ObservedWatch.init`).  Structural equality of this Lean structure
coincides with the Python `__eq__`, which compares
`key = (path, is_recursive, event_filter)`. -/
structure ObservedWatch where
  path : String
  is_recursive : Bool
  event_filter : Option (List Nat)
deriving DecidableEq

/-- `ObservedWatch.__init__` (api.py:50-53):
`self._path = str(path) if isinstance(path, Path) else path`,
`self._is_recursive = recursive`,
`self._event_filter = frozenset(event_filter) if event_filter is not None
else None`. -/
def ObservedWatch.init (path : PyPath) (recursive : Bool)
    (event_filter : Option (List Nat)) : ObservedWatch :=
  { path := match path with
      | .pathObj s => s
      | .str s => s
    is_recursive := recursive
    event_filter := event_filter.map frozenset }

/-- `ObservedWatch.key` (api.py:70-72). -/
def ObservedWatch.key (w : ObservedWatch) : String × Bool × Option (List Nat) :=
  (w.path, w.is_recursive, w.event_filter)

/-- `ObservedWatch.__hash__` (api.py:80-81): `hash(self.key)`.  The stdlib
hash is abstracted by Lean's `hash` on the key tuple; all that matters for
the development is that it is a function of `key`. -/
def ObservedWatch.pyHash (w : ObservedWatch) : UInt64 := hash w.key

/-- A filesystem event as the engine sees it: an event-kind tag (standing
for the Python class of the event, flattened as the spec does to
"event-kind tags") plus a source path distinguishing distinct events of
the same kind. -/
structure FSEvent where
  kind : Nat
  src : String
deriving DecidableEq

/-- An entry of the shared event queue: either the distinguished stop
sentinel `EventDispatcher.stop_event` (api.py:171) or a real
`(event, watch)` pair (api.py:142). -/
inductive QEntry where
  | stopEvent
  | entry (event : FSEvent) (watch : ObservedWatch)
deriving DecidableEq

/-- Modelled from the spec: `SkipRepeatsQueue` / the Deduplicating Event
Queue (spec section 4.2), whose source (`watchdog/utils/bricks.py`) is not
included in the repository snapshot.  It is "an ordered sequence of Queue
Entries with one extra piece of state: the last entry successfully
enqueued", plus the capacity bound of the underlying stdlib queue
(`maxsize`, where `0` means unbounded, as for `queue.Queue`).  The
engine's `EventQueue()` is constructed with no capacity argument, hence
unbounded. -/
structure SRQueue (α : Type) where
  items : List α
  lastItem : Option α
  maxsize : Nat
deriving DecidableEq

/-- Modelled from the spec (section 4.2): `put(entry)` "appends `entry`
unless `entry` is equal (by value) to the single most-recently-enqueued
entry, in which case it is silently dropped.  Comparison is against the
last *enqueued* item only". -/
def SRQueue.put {α : Type} [DecidableEq α] (q : SRQueue α) (x : α) : SRQueue α :=
  if q.lastItem = some x then q
  else { q with items := q.items ++ [x], lastItem := some x }

/-- Result of a `queue.get` call, abstracting real time: `item` is a
successful dequeue, `emptyExc` means the call raises `queue.Empty` (at
once when non-blocking, after the timeout elapses when a timeout was
given), and `blocksForever` means the call waits until an entry arrives
and never raises `queue.Empty` (a blocking get with no timeout on an empty
queue). -/
inductive GetResult (α : Type) where
  | item (x : α) (rest : SRQueue α)
  | emptyExc
  | blocksForever
deriving DecidableEq

/-- Modelled from the spec (section 4.2) and the stdlib `queue.Queue.get`
contract it restates: "blocks up to `timeout` waiting for an entry, in
FIFO order; signals an empty-result condition (not an error) if no entry
becomes available before the timeout elapses"; with `block=True` and no
timeout the call instead waits indefinitely for an entry. -/
def SRQueue.get {α : Type} (q : SRQueue α) (block : Bool) (timeout : Option Nat) :
    GetResult α :=
  match q.items with
  | x :: rest => .item x { q with items := rest }
  | [] => if block ∧ timeout = none then .blocksForever else .emptyExc

/-- Modelled from the spec (section 4.2): `put_nowait(entry)`:
"non-blocking variant used for the shutdown sentinel; may signal a
full-queue condition if a capacity bound exists". -/
def SRQueue.putNowait {α : Type} [DecidableEq α] (q : SRQueue α) (x : α) :
    Except Unit (SRQueue α) :=
  if q.maxsize ≠ 0 ∧ q.maxsize ≤ q.items.length then .error ()
  else .ok (q.put x)

/-- `EventQueue()` as constructed in `EventDispatcher.__init__`
(api.py:176): a fresh unbounded deduplicating queue. -/
def emptyEventQueue : SRQueue QEntry := ⟨[], none, 0⟩

/-- The call `event_queue.get(block=True)` performed by
`BaseObserver.dispatch_events` (api.py:375): a blocking get with no
timeout. -/
def dispatchEventsGet (q : SRQueue QEntry) : GetResult QEntry :=
  q.get true none

/-- `EventEmitter` (api.py:93-142), reduced to the data its `queue_event`
method reads: the watch it serves and the event filter stored by
`__init__` (api.py:120: `frozenset(event_filter) if event_filter is not
None else None`). -/
structure EmitterObj where
  watch : ObservedWatch
  event_filter : Option (List Nat)
deriving DecidableEq

/-- `EventEmitter.__init__`'s treatment of the filter (api.py:120). -/
def EmitterObj.init (w : ObservedWatch) (event_filter : Option (List Nat)) :
    EmitterObj :=
  ⟨w, event_filter.map frozenset⟩

/-- `isinstance(event, cls)` for an event and an event-kind tag, under the
spec's flattening of event classes into kind tags. -/
def isInst (e : FSEvent) (c : Nat) : Bool := e.kind == c

/-- `EventEmitter.queue_event` (api.py:132-142):
`if self._event_filter is None or any(isinstance(event, cls) for cls in
self._event_filter): self._event_queue.put((event, self.watch))`. -/
def EmitterObj.queue_event (em : EmitterObj) (q : SRQueue QEntry) (e : FSEvent) :
    SRQueue QEntry :=
  if (match em.event_filter with
      | none => true
      | some fs => fs.any (isInst e)) then
    q.put (.entry e em.watch)
  else q

/-- A live emitter as the observer's registries see it: its identity (a
fresh counter value standing for the Python object identity), the watch it
was created for, and its stored filter. -/
structure Emitter where
  eid : Nat
  ewatch : ObservedWatch
  efilter : Option (List Nat)
deriving DecidableEq

/-- The mutable state of a `BaseObserver` (api.py:220-227):
`_watches` (the Active Watch Set), `_handlers` (the Handler Registry),
`_emitters`, `_emitter_for_watch` (the Producer Registry), a counter
supplying fresh emitter identities, and the `is_alive()` flag of the
observer thread. -/
structure ObsState where
  watches : List ObservedWatch
  handlers : List (ObservedWatch × List Nat)
  emitters : List Emitter
  emitter_for_watch : List (ObservedWatch × Emitter)
  nextEid : Nat
  alive : Bool
deriving DecidableEq

/-- A freshly constructed observer. -/
def initObs : ObsState :=
  { watches := [], handlers := [], emitters := [], emitter_for_watch := []
    nextEid := 0, alive := false }

/-- A freshly constructed observer whose consumer thread is running. -/
def initObsAlive : ObsState := { initObs with alive := true }

/-- Outcome of an observer operation that returns nothing: Python either
returns normally or lets an exception propagate; either way the registries
are left in the carried state. -/
inductive OpResult where
  | ok (s : ObsState)
  | raised (s : ObsState)
deriving DecidableEq

/-- The observer state after the operation, whether or not it raised. -/
def OpResult.state : OpResult → ObsState
  | .ok s => s
  | .raised s => s

/-- Whether the operation raised. -/
def OpResult.isRaised : OpResult → Bool
  | .ok _ => false
  | .raised _ => true

/-- Outcome of `schedule`: the returned watch on success, or a propagated
exception; both carry the post-state. -/
inductive SchedResult where
  | ok (s : ObsState) (w : ObservedWatch)
  | raised (s : ObsState)
deriving DecidableEq

/-- The observer state after `schedule`, whether or not it raised. -/
def SchedResult.state : SchedResult → ObsState
  | .ok s _ => s
  | .raised s => s

/-- The watch `schedule` returned, if it returned. -/
def SchedResult.watchOf : SchedResult → Option ObservedWatch
  | .ok _ w => some w
  | .raised _ => none

/-- Whether `schedule` raised. -/
def SchedResult.isRaised : SchedResult → Bool
  | .ok _ _ => false
  | .raised _ => true

/-- `BaseObserver._add_handler_for_watch` (api.py:249-252):
`if watch not in self._handlers: self._handlers[watch] = set()` then
`self._handlers[watch].add(event_handler)`. -/
def addHandlerForWatch (m : List (ObservedWatch × List Nat)) (h : Nat)
    (w : ObservedWatch) : List (ObservedWatch × List Nat) :=
  match dget m w with
  | none => dput m w (fsInsert h [])
  | some s => dput m w (fsInsert h s)

/-- `self._handlers.get(watch, [])` (api.py:384-385): the current handler
set for `w`, empty when the watch is unknown. -/
def regOf (m : List (ObservedWatch × List Nat)) (w : ObservedWatch) : List Nat :=
  (dget m w).getD []

/-- `BaseObserver._add_emitter` (api.py:229-231). -/
def addEmitter (s : ObsState) (em : Emitter) : ObsState :=
  { s with emitter_for_watch := dput s.emitter_for_watch em.ewatch em
           emitters := setAdd em s.emitters }

/-- `BaseObserver._remove_emitter` (api.py:233-238):
`del self._emitter_for_watch[emitter.watch]` (KeyError if absent), then
`self._emitters.remove(emitter)` (KeyError if absent), then stop and join
the emitter thread (no registry effect). -/
def removeEmitter (s : ObsState) (em : Emitter) : OpResult :=
  match dget s.emitter_for_watch em.ewatch with
  | none => .raised s
  | some _ =>
    let s1 := { s with emitter_for_watch := ddel s.emitter_for_watch em.ewatch }
    if em ∈ s1.emitters then .ok { s1 with emitters := setRemove em s1.emitters }
    else .raised s1

/-- `BaseObserver._clear_emitters` (api.py:240-247): stop all, join all,
then clear both emitter structures. -/
def clearEmitters (s : ObsState) : ObsState :=
  { s with emitters := [], emitter_for_watch := [] }

/-- `BaseObserver.schedule` (api.py:271-309).  `startFails` says whether
the `emitter.start()` call on the newly constructed emitter raises (the
construction of platform emitters is outside the engine); `start()` is
attempted only when the observer `is_alive()`. -/
def schedule (startFails : Bool) (s : ObsState) (handler : Nat) (path : PyPath)
    (recursive : Bool) (event_filter : Option (List Nat)) : SchedResult :=
  let w := ObservedWatch.init path recursive event_filter
  let s1 := { s with handlers := addHandlerForWatch s.handlers handler w }
  match dget s1.emitter_for_watch w with
  | some _ => .ok { s1 with watches := setAdd w s1.watches } w
  | none =>
    let em : Emitter := ⟨s1.nextEid, w, event_filter.map frozenset⟩
    if s1.alive && startFails then .raised s1
    else
      let s2 := addEmitter { s1 with nextEid := s1.nextEid + 1 } em
      .ok { s2 with watches := setAdd w s2.watches } w

/-- `BaseObserver.add_handler_for_watch` (api.py:311-327). -/
def addHandlerForWatchOp (s : ObsState) (h : Nat) (w : ObservedWatch) : ObsState :=
  { s with handlers := addHandlerForWatch s.handlers h w }

/-- `BaseObserver.remove_handler_for_watch` (api.py:329-345):
`self._handlers[watch].remove(event_handler)` — KeyError when the watch is
unknown or the handler is not in its set, with no registry mutation. -/
def removeHandlerForWatch (s : ObsState) (h : Nat) (w : ObservedWatch) : OpResult :=
  match dget s.handlers w with
  | none => .raised s
  | some hset =>
    if h ∈ hset then .ok { s with handlers := dput s.handlers w (setRemove h hset) }
    else .raised s

/-- `BaseObserver.unschedule` (api.py:347-360): look up the emitter
(KeyError if unknown), `del self._handlers[watch]` (KeyError if unknown),
`self._remove_emitter(emitter)`, `self._watches.remove(watch)` (KeyError
if absent). -/
def unschedule (s : ObsState) (w : ObservedWatch) : OpResult :=
  match dget s.emitter_for_watch w with
  | none => .raised s
  | some em =>
    match dget s.handlers w with
    | none => .raised s
    | some _ =>
      let s1 := { s with handlers := ddel s.handlers w }
      match removeEmitter s1 em with
      | .raised s2 => .raised s2
      | .ok s2 =>
        if w ∈ s2.watches then .ok { s2 with watches := setRemove w s2.watches }
        else .raised s2

/-- `BaseObserver.unschedule_all` (api.py:362-369): clear the handler
registry, stop-all-then-join-all the emitters and clear their structures,
clear the watch set. -/
def unscheduleAll (s : ObsState) : ObsState :=
  { clearEmitters { s with handlers := [] } with watches := [] }

/-- `BaseObserver.start` (api.py:262-269), the loop over
`self._emitters.copy()`: start each emitter in turn; on the first failure
run `self._remove_emitter(emitter)` and re-raise.  `failing eid` says
whether the emitter with identity `eid` raises from `start()`. -/
def startEmitters (failing : Nat → Bool) : List Emitter → ObsState → OpResult
  | [], s => .ok s
  | em :: rest, s =>
    if failing em.eid then .raised (removeEmitter s em).state
    else startEmitters failing rest s

/-- `BaseObserver.start` (api.py:262-269): start every emitter, then
`super().start()` (the consumer thread comes alive). -/
def startObserver (failing : Nat → Bool) (s : ObsState) : OpResult :=
  match startEmitters failing s.emitters s with
  | .ok s1 => .ok { s1 with alive := true }
  | .raised s1 => .raised s1

/-- The body of the `for handler in list(self._handlers.get(watch, []))`
loop of `BaseObserver.dispatch_events` (api.py:384-386): walk the snapshot
taken at loop entry; before each call re-check
`handler in self._handlers.get(watch, [])` against the current registry;
a call `handler.dispatch(event)` is modelled by `beh handler`, an
arbitrary mutation of the handler registry (handlers may re-enter the
registry methods under the reentrant lock).  Returns the handlers called,
in call order, and the final registry. -/
def dispatchLoop (beh : Nat → List (ObservedWatch × List Nat) → List (ObservedWatch × List Nat))
    (w : ObservedWatch) :
    List Nat → List (ObservedWatch × List Nat) →
      List Nat × List (ObservedWatch × List Nat)
  | [], hs => ([], hs)
  | h :: rest, hs =>
    if h ∈ regOf hs w then
      let r := dispatchLoop beh w rest (beh h hs)
      (h :: r.1, r.2)
    else dispatchLoop beh w rest hs

/-- Processing of one real `(event, watch)` entry by
`BaseObserver.dispatch_events` (api.py:378-387): snapshot the handler set,
run the loop, then `event_queue.task_done()`.  Returns the invocations
performed (each handler with the event it was given), the final handler
registry, and the number of `task_done` calls. -/
def dispatchEntry (beh : Nat → List (ObservedWatch × List Nat) → List (ObservedWatch × List Nat))
    (ev : FSEvent) (w : ObservedWatch) (hs : List (ObservedWatch × List Nat)) :
    List (Nat × FSEvent) × List (ObservedWatch × List Nat) × Nat :=
  let r := dispatchLoop beh w (regOf hs w) hs
  (r.1.map (fun h => (h, ev)), r.2, 1)

/-- `BaseObserver.dispatch_events` (api.py:374-387) applied to the entry
obtained from the queue: the stop sentinel returns at once (no handler
call, no `task_done`); a real entry is processed by `dispatchEntry`. -/
def dispatchEvents (beh : Nat → List (ObservedWatch × List Nat) → List (ObservedWatch × List Nat))
    (entry : QEntry) (hs : List (ObservedWatch × List Nat)) :
    List (Nat × FSEvent) × List (ObservedWatch × List Nat) × Nat :=
  match entry with
  | .stopEvent => ([], hs, 0)
  | .entry ev w => dispatchEntry beh ev w hs

/-- The state the consumer loop of `EventDispatcher.run` (api.py:209-214)
acts on: the handler registry, the shared queue, the thread's
keep-running flag (modelled from the spec's cooperative worker-thread
primitive, whose source `watchdog/utils/__init__.py` is not included),
and the count of entries marked processed. -/
structure LoopState where
  hmap : List (ObservedWatch × List Nat)
  q : SRQueue QEntry
  keep : Bool
  done : Nat
deriving DecidableEq

/-- What one pass of the consumer loop did: the loop exited (the
keep-running flag was down), the thread is parked inside the blocking
queue read waiting for an entry, or the pass completed and the loop comes
around again. -/
inductive StepRes where
  | exited (s : LoopState)
  | blocked (s : LoopState)
  | next (s : LoopState)
deriving DecidableEq

/-- The body of one `run` iteration from the point where
`dispatch_events(self.event_queue)` has been entered (api.py:212,
374-387): perform the blocking no-timeout read; a stop sentinel just
returns; a real entry is dispatched and marked done; a `queue.Empty`
from the read would be swallowed by `except queue.Empty: continue`
(api.py:213-214). -/
def wakeDispatch (beh : Nat → List (ObservedWatch × List Nat) → List (ObservedWatch × List Nat))
    (s : LoopState) : StepRes :=
  match s.q.get true none with
  | .blocksForever => .blocked s
  | .emptyExc => .next s
  | .item e q1 =>
    match e with
    | .stopEvent => .next { s with q := q1 }
    | .entry ev w =>
      let r := dispatchEntry beh ev w s.hmap
      .next { s with q := q1, hmap := r.2.1, done := s.done + r.2.2 }

/-- One full iteration of `EventDispatcher.run` (api.py:209-214): test
`should_keep_running()` and exit when it is down, otherwise run the
dispatch body. -/
def loopStep (beh : Nat → List (ObservedWatch × List Nat) → List (ObservedWatch × List Nat))
    (s : LoopState) : StepRes :=
  if s.keep = false then .exited s else wakeDispatch beh s

/-- `EventDispatcher.stop` (api.py:184-187): lower the keep-running flag
(`BaseThread.stop`, modelled from the spec's worker-thread primitive),
then best-effort `put_nowait` of the stop sentinel with `queue.Full`
suppressed. -/
def stopDispatcher (s : LoopState) : LoopState :=
  { s with keep := false
           q := match s.q.putNowait QEntry.stopEvent with
                | .ok q1 => q1
                | .error _ => s.q }

/-- One `schedule` call's arguments. -/
structure SchedCall where
  handler : Nat
  path : PyPath
  recursive : Bool
  event_filter : Option (List Nat)
deriving DecidableEq

/-- The watch descriptor a `schedule` call builds (api.py:299). -/
def SchedCall.descr (c : SchedCall) : ObservedWatch :=
  ObservedWatch.init c.path c.recursive c.event_filter

/-- A sequence of `schedule` calls on which every emitter start succeeds,
threaded through the observer state. -/
def runSchedules : ObsState → List SchedCall → ObsState
  | s, [] => s
  | s, c :: rest =>
    runSchedules (schedule false s c.handler c.path c.recursive c.event_filter).state rest

/-- The keys of the Producer Registry. -/
def ekeys (s : ObsState) : List ObservedWatch :=
  s.emitter_for_watch.map Prod.fst

/-- The Active-Watch-Set / Producer-Registry correspondence the spec
states as an invariant (spec section 3): a descriptor is scheduled iff it
has a Producer Registry entry. -/
def InvW (s : ObsState) : Prop :=
  ∀ w : ObservedWatch, w ∈ s.watches ↔ (dget s.emitter_for_watch w).isSome

/-- Structural well-formedness of the emitter structures that every state
built by the observer's own operations enjoys: each Producer Registry
entry stores an emitter created for exactly that key, and every registered
emitter is a member of `_emitters`. -/
def WFObs (s : ObsState) : Prop :=
  ∀ w em, dget s.emitter_for_watch w = some em → em.ewatch = w ∧ em ∈ s.emitters

/-! ### Association-list (Python dict) lemmas -/

theorem dget_dput_self {κ β : Type} [DecidableEq κ] (m : List (κ × β)) (k : κ) (v : β) :
    dget (dput m k v) k = some v := by
  induction m with
  | nil => simp [dget, dput]
  | cons p rest ih =>
    by_cases h : p.1 = k
    · simp [dput, dget, h]
    · simp [dput, dget, h, ih]

theorem dget_dput_ne {κ β : Type} [DecidableEq κ] (m : List (κ × β)) {k q : κ} (v : β)
    (h : q ≠ k) : dget (dput m k v) q = dget m q := by
  have hkq : k ≠ q := fun hh => h hh.symm
  induction m with
  | nil => simp [dget, dput, hkq]
  | cons p rest ih =>
    by_cases hp : p.1 = k
    · have hpq : p.1 ≠ q := hp ▸ hkq
      simp [dput, dget, hp, hkq, hpq, h]
    · by_cases hq : p.1 = q <;> simp [dput, dget, hp, hq, h, ih]

theorem dget_ddel_self {κ β : Type} [DecidableEq κ] (m : List (κ × β)) (k : κ) :
    dget (ddel m k) k = none := by
  induction m with
  | nil => simp [dget, ddel]
  | cons p rest ih =>
    by_cases h : p.1 = k
    · simpa [ddel, h] using ih
    · simpa [ddel, dget, h] using ih

theorem dget_ddel_ne {κ β : Type} [DecidableEq κ] (m : List (κ × β)) {k q : κ}
    (h : q ≠ k) : dget (ddel m k) q = dget m q := by
  have hkq : k ≠ q := fun hh => h hh.symm
  unfold ddel
  induction m with
  | nil => simp [dget]
  | cons p rest ih =>
    by_cases hp : p.1 = k
    · have hpq : p.1 ≠ q := hp ▸ hkq
      rw [List.filter_cons_of_neg (by simp [hp])]
      rw [show dget (p :: rest) q = dget rest q from by simp [dget, hpq]]
      exact ih
    · rw [List.filter_cons_of_pos (by simp [hp])]
      by_cases hq : p.1 = q
      · simp [dget, hq]
      · rw [show dget (p :: rest) q = dget rest q from by simp [dget, hq]]
        rw [show dget (p :: List.filter (fun p => decide (p.1 ≠ k)) rest) q
              = dget (List.filter (fun p => decide (p.1 ≠ k)) rest) q from by
            simp [dget, hq]]
        exact ih

theorem dget_eq_none_iff {κ β : Type} [DecidableEq κ] (m : List (κ × β)) (k : κ) :
    dget m k = none ↔ k ∉ m.map Prod.fst := by
  induction m with
  | nil => simp [dget]
  | cons p rest ih =>
    by_cases h : p.1 = k
    · simp [dget, h]
    · have hk : ¬ k = p.1 := fun hh => h hh.symm
      rw [show dget (p :: rest) k = dget rest k from by simp [dget, h]]
      rw [List.map_cons, List.mem_cons, ih]
      tauto

theorem dget_isSome_iff {κ β : Type} [DecidableEq κ] (m : List (κ × β)) (k : κ) :
    (dget m k).isSome ↔ k ∈ m.map Prod.fst := by
  rcases hd : dget m k with _ | v
  · simpa [hd] using (dget_eq_none_iff m k).1 hd
  · have : ¬ dget m k = none := by simp [hd]
    simpa [hd] using (dget_eq_none_iff m k).not.1 this

theorem dput_of_dget_none {κ β : Type} [DecidableEq κ] {m : List (κ × β)} {k : κ}
    (h : dget m k = none) (v : β) : dput m k v = m ++ [(k, v)] := by
  induction m with
  | nil => simp [dput]
  | cons p rest ih =>
    by_cases hp : p.1 = k
    · simp [dget, hp] at h
    · simp only [dget, hp, if_neg hp] at h ⊢
      simp [dput, hp, ih h]

theorem keys_dput_of_dget_some {κ β : Type} [DecidableEq κ] {m : List (κ × β)} {k : κ}
    {v0 : β} (h : dget m k = some v0) (v : β) :
    (dput m k v).map Prod.fst = m.map Prod.fst := by
  induction m with
  | nil => simp [dget] at h
  | cons p rest ih =>
    by_cases hp : p.1 = k
    · simp [dput, hp]
    · simp only [dget, hp, if_neg hp] at h
      simp [dput, hp, ih h]

/-! ### Python set / frozenset lemmas -/

theorem fsInsert_cons_eq {x y : Nat} (ys : List Nat) (h : x = y) :
    fsInsert x (y :: ys) = y :: ys := by
  simp only [fsInsert]
  rw [if_pos h]

theorem fsInsert_cons_lt {x y : Nat} (ys : List Nat) (h1 : x ≠ y) (h2 : x < y) :
    fsInsert x (y :: ys) = x :: y :: ys := by
  simp only [fsInsert]
  rw [if_neg h1, if_pos h2]

theorem fsInsert_cons_gt {x y : Nat} (ys : List Nat) (h1 : x ≠ y) (h2 : ¬ x < y) :
    fsInsert x (y :: ys) = y :: fsInsert x ys := by
  simp only [fsInsert]
  rw [if_neg h1, if_neg h2]

theorem mem_fsInsert (a x : Nat) (s : List Nat) :
    a ∈ fsInsert x s ↔ a = x ∨ a ∈ s := by
  induction s with
  | nil => simp [fsInsert]
  | cons y ys ih =>
    by_cases h1 : x = y
    · rw [fsInsert_cons_eq ys h1, List.mem_cons]
      subst h1
      tauto
    · by_cases h2 : x < y
      · rw [fsInsert_cons_lt ys h1 h2]
        simp [List.mem_cons]
      · rw [fsInsert_cons_gt ys h1 h2]
        simp only [List.mem_cons, ih]
        tauto

theorem sorted_fsInsert {s : List Nat} (hs : s.Sorted (· < ·)) (x : Nat) :
    (fsInsert x s).Sorted (· < ·) := by
  induction s with
  | nil => simp [fsInsert]
  | cons y ys ih =>
    rw [List.sorted_cons] at hs
    by_cases h1 : x = y
    · rw [fsInsert_cons_eq ys h1, List.sorted_cons]
      exact ⟨hs.1, hs.2⟩
    · by_cases h2 : x < y
      · rw [fsInsert_cons_lt ys h1 h2, List.sorted_cons]
        refine ⟨?_, (List.sorted_cons).2 ⟨hs.1, hs.2⟩⟩
        intro b hb
        rcases List.mem_cons.1 hb with hb | hb
        · exact hb ▸ h2
        · exact lt_trans h2 (hs.1 b hb)
      · have h3 : y < x := by omega
        rw [fsInsert_cons_gt ys h1 h2, List.sorted_cons]
        refine ⟨?_, ih hs.2⟩
        intro b hb
        rcases (mem_fsInsert b x ys).1 hb with hb | hb
        · exact hb ▸ h3
        · exact hs.1 b hb

theorem sorted_frozenset (l : List Nat) : (frozenset l).Sorted (· < ·) := by
  induction l with
  | nil => simp [frozenset]
  | cons x xs ih => exact sorted_fsInsert ih x

theorem mem_frozenset (a : Nat) (l : List Nat) : a ∈ frozenset l ↔ a ∈ l := by
  induction l with
  | nil => simp [frozenset]
  | cons x xs ih =>
    show a ∈ fsInsert x (frozenset xs) ↔ _
    rw [mem_fsInsert, ih, List.mem_cons]

theorem frozenset_perm {l₁ l₂ : List Nat} (h : l₁.Perm l₂) :
    frozenset l₁ = frozenset l₂ := by
  haveI : IsAntisymm Nat (· < ·) := ⟨fun a b hab hba => absurd hab (Nat.lt_asymm hba)⟩
  have n₁ := (sorted_frozenset l₁).nodup
  have n₂ := (sorted_frozenset l₂).nodup
  refine List.eq_of_perm_of_sorted ?_ (sorted_frozenset l₁) (sorted_frozenset l₂)
  refine (List.perm_ext_iff_of_nodup n₁ n₂).2 fun a => ?_
  rw [mem_frozenset, mem_frozenset]
  exact ⟨fun ha => h.mem_iff.1 ha, fun ha => h.mem_iff.2 ha⟩

theorem fsInsert_idem (x : Nat) (s : List Nat) :
    fsInsert x (fsInsert x s) = fsInsert x s := by
  induction s with
  | nil => simp [fsInsert]
  | cons y ys ih =>
    by_cases h1 : x = y
    · rw [fsInsert_cons_eq ys h1, fsInsert_cons_eq ys h1]
    · by_cases h2 : x < y
      · rw [fsInsert_cons_lt ys h1 h2, fsInsert_cons_eq (y :: ys) rfl]
      · rw [fsInsert_cons_gt ys h1 h2, fsInsert_cons_gt (fsInsert x ys) h1 h2, ih]

theorem frozenset_cons_dup (x : Nat) (l : List Nat) :
    frozenset (x :: x :: l) = frozenset (x :: l) := by
  show fsInsert x (fsInsert x (frozenset l)) = fsInsert x (frozenset l)
  exact fsInsert_idem x (frozenset l)

theorem mem_setAdd {α : Type} [DecidableEq α] (a x : α) (s : List α) :
    a ∈ setAdd x s ↔ a = x ∨ a ∈ s := by
  unfold setAdd
  by_cases h : x ∈ s
  · rw [if_pos h]
    refine ⟨Or.inr, fun ha => ?_⟩
    rcases ha with he | hm
    · rw [he]
      exact h
    · exact hm
  · rw [if_neg h]
    simp [or_comm]

theorem mem_setRemove {α : Type} [DecidableEq α] (a x : α) (s : List α) :
    a ∈ setRemove x s ↔ a ∈ s ∧ a ≠ x := by
  simp [setRemove]

theorem nodup_setAdd {α : Type} [DecidableEq α] {s : List α} (h : s.Nodup) (x : α) :
    (setAdd x s).Nodup := by
  unfold setAdd
  by_cases hx : x ∈ s
  · rwa [if_pos hx]
  · rw [if_neg hx]
    refine List.Nodup.append h (List.nodup_singleton x) ?_
    intro b hb hbx
    rcases List.mem_singleton.1 hbx with rfl
    exact hx hb

/-! ### Dispatch-loop lemmas -/

theorem dispatchLoop_nil (beh : Nat → List (ObservedWatch × List Nat) → List (ObservedWatch × List Nat))
    (w : ObservedWatch) (hs : List (ObservedWatch × List Nat)) :
    dispatchLoop beh w [] hs = ([], hs) := rfl

theorem dispatchLoop_cons_mem
    {beh : Nat → List (ObservedWatch × List Nat) → List (ObservedWatch × List Nat)}
    {w : ObservedWatch} {h0 : Nat} {hs : List (ObservedWatch × List Nat)}
    (rest : List Nat) (hm : h0 ∈ regOf hs w) :
    dispatchLoop beh w (h0 :: rest) hs =
      (h0 :: (dispatchLoop beh w rest (beh h0 hs)).1,
       (dispatchLoop beh w rest (beh h0 hs)).2) := by
  simp [dispatchLoop, hm]

theorem dispatchLoop_cons_not_mem
    {beh : Nat → List (ObservedWatch × List Nat) → List (ObservedWatch × List Nat)}
    {w : ObservedWatch} {h0 : Nat} {hs : List (ObservedWatch × List Nat)}
    (rest : List Nat) (hm : h0 ∉ regOf hs w) :
    dispatchLoop beh w (h0 :: rest) hs = dispatchLoop beh w rest hs := by
  simp [dispatchLoop, hm]

theorem dispatchLoop_sublist
    (beh : Nat → List (ObservedWatch × List Nat) → List (ObservedWatch × List Nat))
    (w : ObservedWatch) :
    ∀ (l : List Nat) (hs : List (ObservedWatch × List Nat)),
      (dispatchLoop beh w l hs).1.Sublist l
  | [], _ => by simp [dispatchLoop_nil]
  | h0 :: rest, hs => by
    by_cases hm : h0 ∈ regOf hs w
    · rw [dispatchLoop_cons_mem rest hm]
      exact (dispatchLoop_sublist beh w rest (beh h0 hs)).cons₂ h0
    · rw [dispatchLoop_cons_not_mem rest hm]
      exact (dispatchLoop_sublist beh w rest hs).cons h0

/-- The characterisation of which handlers `dispatch_events` actually
invokes: a handler is called iff it occurs in the loop-entry snapshot and
is (re-checked) registered for the watch in the registry state reached
just before its turn, i.e. after the loop has processed the part of the
snapshot that precedes it. -/
theorem dispatchLoop_mem_iff
    (beh : Nat → List (ObservedWatch × List Nat) → List (ObservedWatch × List Nat))
    (w : ObservedWatch) :
    ∀ (l : List Nat) (hs : List (ObservedWatch × List Nat)) (b : Nat),
      b ∈ (dispatchLoop beh w l hs).1 ↔
        ∃ l₁ l₂, l = l₁ ++ b :: l₂ ∧ b ∈ regOf (dispatchLoop beh w l₁ hs).2 w
  | [], hs, b => by
    rw [dispatchLoop_nil]
    simp only [List.not_mem_nil, false_iff, not_exists]
    intro l₁ l₂ hcontra
    exact absurd hcontra.1 (by simp)
  | h0 :: rest, hs, b => by
    by_cases hm : h0 ∈ regOf hs w
    · rw [dispatchLoop_cons_mem rest hm]
      constructor
      · intro hb
        rcases List.mem_cons.1 hb with rfl | hb
        · exact ⟨[], rest, rfl, by rw [dispatchLoop_nil]; exact hm⟩
        · rcases (dispatchLoop_mem_iff beh w rest (beh h0 hs) b).1 hb with ⟨l₁, l₂, hl, hr⟩
          refine ⟨h0 :: l₁, l₂, by rw [List.cons_append, hl], ?_⟩
          rw [dispatchLoop_cons_mem l₁ hm]
          exact hr
      · rintro ⟨l₁, l₂, hl, hr⟩
        cases l₁ with
        | nil =>
          simp only [List.nil_append] at hl
          rcases List.cons_eq_cons.1 hl with ⟨rfl, rfl⟩
          exact List.mem_cons_self _ _
        | cons a t =>
          simp only [List.cons_append] at hl
          rcases List.cons_eq_cons.1 hl with ⟨rfl, hrest⟩
          rw [dispatchLoop_cons_mem t hm] at hr
          refine List.mem_cons_of_mem _ ?_
          exact (dispatchLoop_mem_iff beh w rest (beh h0 hs) b).2 ⟨t, l₂, hrest, hr⟩
    · rw [dispatchLoop_cons_not_mem rest hm]
      constructor
      · intro hb
        rcases (dispatchLoop_mem_iff beh w rest hs b).1 hb with ⟨l₁, l₂, hl, hr⟩
        refine ⟨h0 :: l₁, l₂, by rw [List.cons_append, hl], ?_⟩
        rw [dispatchLoop_cons_not_mem l₁ hm]
        exact hr
      · rintro ⟨l₁, l₂, hl, hr⟩
        cases l₁ with
        | nil =>
          simp only [List.nil_append] at hl
          rcases List.cons_eq_cons.1 hl with ⟨rfl, rfl⟩
          rw [dispatchLoop_nil] at hr
          exact absurd hr hm
        | cons a t =>
          simp only [List.cons_append] at hl
          rcases List.cons_eq_cons.1 hl with ⟨rfl, hrest⟩
          rw [dispatchLoop_cons_not_mem t hm] at hr
          exact (dispatchLoop_mem_iff beh w rest hs b).2 ⟨t, l₂, hrest, hr⟩

/-- With a handler behaviour that does not touch the registry, the loop
state is unchanged throughout. -/
theorem dispatchLoop_id_state (w : ObservedWatch) :
    ∀ (l : List Nat) (hs : List (ObservedWatch × List Nat)),
      (dispatchLoop (fun _ m => m) w l hs).2 = hs
  | [], _ => rfl
  | h0 :: rest, hs => by
    by_cases hm : h0 ∈ regOf hs w
    · rw [dispatchLoop_cons_mem rest hm]
      exact dispatchLoop_id_state w rest hs
    · rw [dispatchLoop_cons_not_mem rest hm]
      exact dispatchLoop_id_state w rest hs

/-- With a handler behaviour that does not touch the registry, exactly the
snapshot members that are registered are called, in snapshot order. -/
theorem dispatchLoop_id_calls (w : ObservedWatch) :
    ∀ (l : List Nat) (hs : List (ObservedWatch × List Nat)),
      (dispatchLoop (fun _ m => m) w l hs).1 =
        l.filter (fun h => decide (h ∈ regOf hs w))
  | [], _ => rfl
  | h0 :: rest, hs => by
    by_cases hm : h0 ∈ regOf hs w
    · rw [dispatchLoop_cons_mem rest hm, List.filter_cons_of_pos (by simpa using hm)]
      rw [dispatchLoop_id_calls w rest hs]
    · rw [dispatchLoop_cons_not_mem rest hm, List.filter_cons_of_neg (by simpa using hm)]
      exact dispatchLoop_id_calls w rest hs

/-- In a duplicate-free list, the decomposition around a given element is
unique. -/
theorem append_cons_inj_of_not_mem {α : Type} {b : α} :
    ∀ {l₁ l₁' l₂ l₂' : List α}, l₁ ++ b :: l₂ = l₁' ++ b :: l₂' →
      b ∉ l₁ → b ∉ l₁' → l₁ = l₁' ∧ l₂ = l₂'
  | [], [], _, _, h, _, _ => by
    simp only [List.nil_append] at h
    exact ⟨rfl, (List.cons_eq_cons.1 h).2⟩
  | [], c' :: t', _, _, h, _, hb' => by
    simp only [List.nil_append, List.cons_append] at h
    rcases List.cons_eq_cons.1 h with ⟨he, _⟩
    exact absurd (he ▸ List.mem_cons_self c' t') hb'
  | c :: t, [], _, _, h, hb, _ => by
    simp only [List.nil_append, List.cons_append] at h
    rcases List.cons_eq_cons.1 h with ⟨he, _⟩
    exact absurd (he.symm ▸ List.mem_cons_self c t) hb
  | c :: t, c' :: t', l₂, l₂', h, hb, hb' => by
    simp only [List.cons_append] at h
    rcases List.cons_eq_cons.1 h with ⟨rfl, hrest⟩
    have hbt : b ∉ t := fun hx => hb (List.mem_cons_of_mem _ hx)
    have hbt' : b ∉ t' := fun hx => hb' (List.mem_cons_of_mem _ hx)
    rcases append_cons_inj_of_not_mem hrest hbt hbt' with ⟨rfl, rfl⟩
    exact ⟨rfl, rfl⟩

/-! ### Deduplicating-queue lemmas -/

theorem destutter'_head {α : Type} (R : α → α → Prop) [DecidableRel R] :
    ∀ (l : List α) (a : α), l.destutter' R a = a :: (l.destutter' R a).tail
  | [], a => rfl
  | h :: l, a => by
    by_cases hR : R a h
    · rw [List.destutter'_cons_pos l hR]
      simp
    · rw [List.destutter'_cons_neg l hR]
      exact destutter'_head R l a

theorem foldl_put_items {α : Type} [DecidableEq α] :
    ∀ (xs : List α) (q : SRQueue α) (a : α), q.lastItem = some a →
      (List.foldl SRQueue.put q xs).items =
        q.items ++ (xs.destutter' (· ≠ ·) a).tail
  | [], q, a, h => by simp [List.destutter'_nil]
  | x :: xs, q, a, h => by
    by_cases hax : a = x
    · have hput : SRQueue.put q x = q := by
        simp [SRQueue.put, h, hax]
      rw [List.foldl_cons, hput, foldl_put_items xs q a h,
        List.destutter'_cons_neg xs (by simp [hax])]
    · have hput : SRQueue.put q x =
          { q with items := q.items ++ [x], lastItem := some x } := by
        simp only [SRQueue.put, h]
        rw [if_neg (by simpa using hax)]
      rw [List.foldl_cons, hput, foldl_put_items xs _ x rfl,
        List.destutter'_cons_pos xs (show a ≠ x from hax), List.tail_cons]
      conv_rhs => rw [destutter'_head (· ≠ ·) xs x]
      simp

/-- The sequence a fresh deduplicating queue stores for an arbitrary
sequence of `put` calls: exactly the adjacent-duplicate-collapsed
(`destutter`) input sequence. -/
theorem foldl_put_from_empty {α : Type} [DecidableEq α] (m : Nat) :
    ∀ xs : List α,
      (List.foldl SRQueue.put (⟨[], none, m⟩ : SRQueue α) xs).items =
        xs.destutter (· ≠ ·)
  | [] => rfl
  | x :: xs => by
    have hput : SRQueue.put (⟨[], none, m⟩ : SRQueue α) x = ⟨[x], some x, m⟩ := by
      simp [SRQueue.put]
    rw [List.foldl_cons, hput, foldl_put_items xs ⟨[x], some x, m⟩ x rfl,
      List.destutter_cons']
    conv_rhs => rw [destutter'_head (· ≠ ·) xs x]
    simp

/-! ### Observer registry lemmas -/

theorem mem_regOf_addHandler (m : List (ObservedWatch × List Nat)) (h : Nat)
    (w : ObservedWatch) : h ∈ regOf (addHandlerForWatch m h w) w := by
  unfold addHandlerForWatch regOf
  rcases hd : dget m w with _ | s
  · rw [dget_dput_self]
    simp [mem_fsInsert]
  · rw [dget_dput_self]
    simp [mem_fsInsert]

theorem regOf_addHandler_self (m : List (ObservedWatch × List Nat)) (h : Nat)
    (w : ObservedWatch) :
    regOf (addHandlerForWatch m h w) w = fsInsert h (regOf m w) := by
  unfold addHandlerForWatch regOf
  rcases hd : dget m w with _ | s
  · rw [dget_dput_self]
    rfl
  · rw [dget_dput_self]
    rfl

/-- The failing-start branch of `schedule` on a running observer: the
exception propagates after the handler has been attached but before the
emitter is registered and before the watch is added. -/
theorem schedule_raised_eq (s : ObsState) (h : Nat) (p : PyPath) (r : Bool)
    (f : Option (List Nat)) (halive : s.alive = true)
    (hnone : dget s.emitter_for_watch (ObservedWatch.init p r f) = none) :
    schedule true s h p r f =
      .raised { s with handlers := addHandlerForWatch s.handlers h (ObservedWatch.init p r f) } := by
  simp [schedule, hnone, halive]

/-- `schedule` with a successful (or unattempted) emitter start returns
the freshly built descriptor. -/
theorem schedule_false_watchOf (s : ObsState) (h : Nat) (p : PyPath) (r : Bool)
    (f : Option (List Nat)) :
    (schedule false s h p r f).watchOf = some (ObservedWatch.init p r f) := by
  rcases hd : dget s.emitter_for_watch (ObservedWatch.init p r f) with _ | em
  · simp [schedule, hd, SchedResult.watchOf]
  · simp [schedule, hd, SchedResult.watchOf]

/-- How one successful `schedule` call evolves the Producer Registry keys:
the built descriptor is appended exactly when it was not already a key. -/
theorem ekeys_schedule_false (s : ObsState) (h : Nat) (p : PyPath) (r : Bool)
    (f : Option (List Nat)) :
    ekeys (schedule false s h p r f).state =
      setAdd (ObservedWatch.init p r f) (ekeys s) := by
  set w := ObservedWatch.init p r f with hw
  rcases hd : dget s.emitter_for_watch w with _ | em
  · have hnotmem : w ∉ s.emitter_for_watch.map Prod.fst := (dget_eq_none_iff _ _).1 hd
    have happ := dput_of_dget_none (m := s.emitter_for_watch) (k := w) hd
    simp only [schedule, hd, SchedResult.state, ekeys, addEmitter, happ, setAdd,
      Bool.and_false, Bool.false_eq_true, if_false]
    rw [List.map_append, if_neg hnotmem]
    rfl
  · have hmem : w ∈ s.emitter_for_watch.map Prod.fst := by
      rw [← dget_isSome_iff]
      simp [hd]
    simp only [schedule, hd, SchedResult.state, ekeys, setAdd]
    rw [if_pos hmem]

theorem runSchedules_ekeys :
    ∀ (cs : List SchedCall) (s : ObsState),
      ekeys (runSchedules s cs) =
        List.foldl (fun acc d => setAdd d acc) (ekeys s) (cs.map SchedCall.descr)
  | [], s => rfl
  | c :: cs, s => by
    rw [List.map_cons, List.foldl_cons]
    show ekeys (runSchedules (schedule false s c.handler c.path c.recursive c.event_filter).state cs) = _
    rw [runSchedules_ekeys cs _, ekeys_schedule_false]
    rfl

theorem mem_foldl_setAdd {α : Type} [DecidableEq α] :
    ∀ (l : List α) (acc : List α) (a : α),
      a ∈ List.foldl (fun acc d => setAdd d acc) acc l ↔ a ∈ acc ∨ a ∈ l
  | [], acc, a => by simp
  | x :: l, acc, a => by
    rw [List.foldl_cons, mem_foldl_setAdd l (setAdd x acc) a, mem_setAdd]
    simp only [List.mem_cons]
    tauto

theorem nodup_foldl_setAdd {α : Type} [DecidableEq α] :
    ∀ (l : List α) {acc : List α}, acc.Nodup →
      (List.foldl (fun acc d => setAdd d acc) acc l).Nodup
  | [], _, h => h
  | x :: l, acc, h => by
    rw [List.foldl_cons]
    exact nodup_foldl_setAdd l (nodup_setAdd h x)

theorem length_foldl_setAdd_nil {α : Type} [DecidableEq α] (l : List α) :
    (List.foldl (fun acc d => setAdd d acc) ([] : List α) l).length = l.dedup.length := by
  have hnd1 : (List.foldl (fun acc d => setAdd d acc) ([] : List α) l).Nodup :=
    nodup_foldl_setAdd l List.nodup_nil
  have hperm : (List.foldl (fun acc d => setAdd d acc) ([] : List α) l).Perm l.dedup := by
    refine (List.perm_ext_iff_of_nodup hnd1 l.nodup_dedup).2 fun a => ?_
    rw [mem_foldl_setAdd, List.mem_dedup]
    simp
  exact hperm.length_eq

/-! ### Invariant-preservation lemmas -/

theorem invW_schedule {s : ObsState} (hI : InvW s) (sf : Bool) (h : Nat)
    (p : PyPath) (r : Bool) (f : Option (List Nat)) :
    InvW (schedule sf s h p r f).state := by
  set w := ObservedWatch.init p r f with hw
  rcases hd : dget s.emitter_for_watch w with _ | em
  · cases hab : s.alive && sf with
    | true =>
      intro w'
      simp only [schedule, hd, hab, if_pos, SchedResult.state]
      exact hI w'
    | false =>
      intro w'
      simp only [schedule, hd, hab, Bool.false_eq_true, if_false, SchedResult.state,
        addEmitter]
      rw [mem_setAdd]
      by_cases hww : w' = w
      · subst hww
        simp [dget_dput_self]
      · rw [dget_dput_ne _ _ hww]
        simpa [hww] using hI w'
  · intro w'
    simp only [schedule, hd, SchedResult.state]
    rw [mem_setAdd]
    by_cases hww : w' = w
    · subst hww
      simp [hd]
    · simpa [hww] using hI w'

theorem invW_unschedule {s : ObsState} (hI : InvW s) (hWF : WFObs s)
    (w : ObservedWatch) : InvW (unschedule s w).state := by
  rcases hd : dget s.emitter_for_watch w with _ | em
  · simpa [unschedule, hd, OpResult.state] using hI
  · rcases hh : dget s.handlers w with _ | hset
    · simpa [unschedule, hd, hh, OpResult.state] using hI
    · rcases hWF w em hd with ⟨hew, hmem⟩
      have hd1 : dget s.emitter_for_watch em.ewatch = some em := by rwa [hew]
      have hwmem : w ∈ s.watches := (hI w).2 (by simp [hd])
      have heq : unschedule s w =
          .ok { s with handlers := ddel s.handlers w
                       emitters := setRemove em s.emitters
                       emitter_for_watch := ddel s.emitter_for_watch em.ewatch
                       watches := setRemove w s.watches } := by
        simp [unschedule, hd, hh, removeEmitter, hd1, hmem, hwmem]
      rw [heq]
      intro w'
      simp only [OpResult.state, mem_setRemove]
      by_cases hww : w' = w
      · subst hww
        rw [hew, dget_ddel_self]
        simp
      · rw [hew, dget_ddel_ne _ hww]
        simpa [hww] using hI w'

theorem invW_unscheduleAll (s : ObsState) : InvW (unscheduleAll s) := by
  intro w
  simp [unscheduleAll, clearEmitters, dget]

theorem startEmitters_ok {failing : Nat → Bool} :
    ∀ {l : List Emitter} {s s1 : ObsState}, startEmitters failing l s = .ok s1 → s1 = s
  | [], _, _, h => by
    simpa [startEmitters] using h.symm
  | em :: rest, s, s1, h => by
    by_cases hf : failing em.eid
    · simp [startEmitters, hf] at h
    · rw [startEmitters, if_neg hf] at h
      exact startEmitters_ok h

theorem invW_start_ok {s s1 : ObsState} (hI : InvW s) (failing : Nat → Bool)
    (hok : startObserver failing s = .ok s1) : InvW s1 := by
  unfold startObserver at hok
  rcases hrun : startEmitters failing s.emitters s with s2 | s2 <;> rw [hrun] at hok
  · rcases startEmitters_ok hrun with rfl
    cases hok
    intro w'
    exact hI w'
  · cases hok

/-! ### Claim theorems -/

/-- C6: the deduplicating queue's `put(entry)` appends `entry` unless it
equals, by value, the single most-recently-enqueued entry, in which case
it is silently dropped; comparison is only against the last enqueued item,
so the enqueue sequence `[A, A, A, B, A]` yields the stored sequence
`[A, B, A]` (in general: the adjacent-duplicate-collapsed input
sequence). -/
theorem dedup_queue_put_skips_adjacent_repeats :
    (∀ (q : SRQueue QEntry) (x : QEntry), q.lastItem = some x → q.put x = q)
    ∧ (∀ (q : SRQueue QEntry) (x : QEntry), q.lastItem ≠ some x →
        (q.put x).items = q.items ++ [x] ∧ (q.put x).lastItem = some x)
    ∧ (∀ (A B : QEntry), A ≠ B →
        (List.foldl SRQueue.put emptyEventQueue [A, A, A, B, A]).items = [A, B, A])
    ∧ (∀ xs : List QEntry,
        (List.foldl SRQueue.put emptyEventQueue xs).items = xs.destutter (· ≠ ·)) := by
  have hgen : ∀ xs : List QEntry,
      (List.foldl SRQueue.put emptyEventQueue xs).items = xs.destutter (· ≠ ·) :=
    fun xs => foldl_put_from_empty 0 xs
  refine ⟨?_, ?_, ?_, hgen⟩
  · intro q x h
    simp [SRQueue.put, h]
  · intro q x h
    constructor <;> simp [SRQueue.put, h]
  · intro A B hAB
    rw [hgen [A, A, A, B, A], List.destutter_cons',
      List.destutter'_cons_neg _ (by simp),
      List.destutter'_cons_neg _ (by simp),
      List.destutter'_cons_pos _ hAB,
      List.destutter'_cons_pos _ (show B ≠ A from fun he => hAB he.symm),
      List.destutter'_nil]

/-- Witness for C6's theorem at a concrete pair of distinct entries. -/
theorem dedup_queue_put_skips_adjacent_repeats_witness :
    (QEntry.stopEvent
        ≠ QEntry.entry ⟨0, "f"⟩ (ObservedWatch.init (.str "/p") false none))
    ∧ (List.foldl SRQueue.put emptyEventQueue
        [QEntry.stopEvent, QEntry.stopEvent, QEntry.stopEvent,
         QEntry.entry ⟨0, "f"⟩ (ObservedWatch.init (.str "/p") false none),
         QEntry.stopEvent]).items
      = [QEntry.stopEvent,
         QEntry.entry ⟨0, "f"⟩ (ObservedWatch.init (.str "/p") false none),
         QEntry.stopEvent] :=
  ⟨by decide,
   dedup_queue_put_skips_adjacent_repeats.2.2.1 QEntry.stopEvent
     (QEntry.entry ⟨0, "f"⟩ (ObservedWatch.init (.str "/p") false none)) (by decide)⟩

/-- C7: `unschedule` on a watch with no Producer Registry entry, and
`remove_handler_for_watch` on an unknown watch or a handler not in the
watch's set, raise a lookup error (`KeyError`) to the caller, and the
observer state — Handler Registry, Producer Registry and Active Watch Set
— is exactly the state before the call. -/
theorem lookup_failures_signalled_state_unchanged (s : ObsState) (h : Nat)
    (w : ObservedWatch) :
    (dget s.emitter_for_watch w = none → unschedule s w = .raised s)
    ∧ (dget s.handlers w = none → removeHandlerForWatch s h w = .raised s)
    ∧ (∀ hset, dget s.handlers w = some hset → h ∉ hset →
        removeHandlerForWatch s h w = .raised s) := by
  refine ⟨?_, ?_, ?_⟩
  · intro hd
    simp [unschedule, hd]
  · intro hd
    simp [removeHandlerForWatch, hd]
  · intro hset hd hmem
    simp [removeHandlerForWatch, hd, hmem]

/-- Witness for C7's theorem on a fresh observer. -/
theorem lookup_failures_signalled_state_unchanged_witness :
    unschedule initObs (ObservedWatch.init (.str "/p") false none) = .raised initObs
    ∧ removeHandlerForWatch initObs 0 (ObservedWatch.init (.str "/p") false none)
        = .raised initObs :=
  ⟨(lookup_failures_signalled_state_unchanged initObs 0
      (ObservedWatch.init (.str "/p") false none)).1 (by decide),
   (lookup_failures_signalled_state_unchanged initObs 0
      (ObservedWatch.init (.str "/p") false none)).2.1 (by decide)⟩

/-- C9: `queue_event` puts the pair `(event, watch)` onto the shared queue
exactly when the Producer's `event_filter` is `None` or the event's kind
is a member of the filter, and otherwise discards the event, leaving the
queue untouched; and a put whose entry does not collide with the last
enqueued entry appends it to the backlog. -/
theorem queue_event_filters_by_kind (w : ObservedWatch) (filt : Option (List Nat))
    (q : SRQueue QEntry) (e : FSEvent) :
    (filt = none → (EmitterObj.init w filt).queue_event q e = q.put (.entry e w))
    ∧ (∀ fs, filt = some fs → e.kind ∈ fs →
        (EmitterObj.init w filt).queue_event q e = q.put (.entry e w))
    ∧ (∀ fs, filt = some fs → e.kind ∉ fs →
        (EmitterObj.init w filt).queue_event q e = q)
    ∧ (q.lastItem ≠ some (.entry e w) →
        (q.put (.entry e w)).items = q.items ++ [.entry e w]) := by
  have hany : ∀ fs : List Nat, ((frozenset fs).any (isInst e) = true) ↔ e.kind ∈ fs := by
    intro fs
    rw [List.any_eq_true]
    constructor
    · rintro ⟨c, hc, hic⟩
      rw [show isInst e c = (e.kind == c) from rfl, beq_iff_eq] at hic
      exact (mem_frozenset e.kind fs).1 (hic ▸ hc)
    · intro hk
      exact ⟨e.kind, (mem_frozenset e.kind fs).2 hk, by simp [isInst]⟩
  refine ⟨?_, ?_, ?_, ?_⟩
  · intro hf
    subst hf
    simp [EmitterObj.init, EmitterObj.queue_event]
  · intro fs hf hk
    subst hf
    simp only [EmitterObj.init, EmitterObj.queue_event, Option.map_some]
    rw [if_pos (by simpa [hany fs] using hk)]
  · intro fs hf hk
    subst hf
    simp only [EmitterObj.init, EmitterObj.queue_event, Option.map_some]
    rw [if_neg (by simpa [hany fs] using hk)]
  · intro hlast
    simp [SRQueue.put, hlast]

/-- Witness for C9's theorem: a filter containing the event's kind lets
the event through; one not containing it drops the event. -/
theorem queue_event_filters_by_kind_witness :
    ((some [3] : Option (List Nat)) = some [3])
    ∧ (EmitterObj.init (ObservedWatch.init (.str "/p") false none)
          (some [3])).queue_event emptyEventQueue ⟨3, "f"⟩
        = emptyEventQueue.put
            (.entry ⟨3, "f"⟩ (ObservedWatch.init (.str "/p") false none))
    ∧ (EmitterObj.init (ObservedWatch.init (.str "/p") false none)
          (some [4])).queue_event emptyEventQueue ⟨3, "f"⟩
        = emptyEventQueue :=
  ⟨rfl,
   (queue_event_filters_by_kind (ObservedWatch.init (.str "/p") false none)
      (some [3]) emptyEventQueue ⟨3, "f"⟩).2.1 [3] rfl (by decide),
   (queue_event_filters_by_kind (ObservedWatch.init (.str "/p") false none)
      (some [4]) emptyEventQueue ⟨3, "f"⟩).2.2.1 [4] rfl (by decide)⟩

/-- C10: `ObservedWatch` construction normalises its inputs: a `Path`
object is stored as its string form and an `event_filter` iterable is
stored as a frozenset, so descriptors built from `Path(p)` versus the
string `p`, or from reorderings/duplications of the filter, are equal,
hash equal, and collapse to the same Producer under `schedule`. -/
theorem watch_init_normalises_inputs (p : String) (r : Bool)
    (f : Option (List Nat)) :
    (ObservedWatch.init (.pathObj p) r f = ObservedWatch.init (.str p) r f)
    ∧ ((ObservedWatch.init (.pathObj p) r f).pyHash
        = (ObservedWatch.init (.str p) r f).pyHash)
    ∧ (ObservedWatch.init (.str p) r f).path = p
    ∧ (∀ l, f = some l →
        (ObservedWatch.init (.str p) r f).event_filter = some (frozenset l))
    ∧ (∀ l₁ l₂ : List Nat, l₁.Perm l₂ →
        ObservedWatch.init (.str p) r (some l₁) = ObservedWatch.init (.str p) r (some l₂)
        ∧ (ObservedWatch.init (.str p) r (some l₁)).pyHash
            = (ObservedWatch.init (.str p) r (some l₂)).pyHash)
    ∧ (∀ (x : Nat) (l : List Nat),
        ObservedWatch.init (.str p) r (some (x :: x :: l))
          = ObservedWatch.init (.str p) r (some (x :: l)))
    ∧ (∀ (h₁ h₂ : Nat) (l₁ l₂ : List Nat), l₁.Perm l₂ →
        (runSchedules initObs
            [⟨h₁, .pathObj p, r, some l₁⟩,
             ⟨h₂, .str p, r, some l₂⟩]).emitter_for_watch.length = 1) := by
  have hpath : ObservedWatch.init (.pathObj p) r f = ObservedWatch.init (.str p) r f := rfl
  have hperm : ∀ l₁ l₂ : List Nat, l₁.Perm l₂ →
      ObservedWatch.init (.str p) r (some l₁) = ObservedWatch.init (.str p) r (some l₂) := by
    intro l₁ l₂ hp
    simp [ObservedWatch.init, frozenset_perm hp]
  refine ⟨hpath, by rw [hpath], rfl, ?_, ?_, ?_, ?_⟩
  · intro l hl
    subst hl
    rfl
  · intro l₁ l₂ hp
    exact ⟨hperm l₁ l₂ hp, by rw [hperm l₁ l₂ hp]⟩
  · intro x l
    simp [ObservedWatch.init, frozenset_cons_dup]
  · intro h₁ h₂ l₁ l₂ hp
    have hdd : SchedCall.descr ⟨h₂, .str p, r, some l₂⟩
        = SchedCall.descr ⟨h₁, .pathObj p, r, some l₁⟩ := by
      show ObservedWatch.init (.str p) r (some l₂) = ObservedWatch.init (.pathObj p) r (some l₁)
      rw [show ObservedWatch.init (.pathObj p) r (some l₁)
            = ObservedWatch.init (.str p) r (some l₁) from rfl]
      exact (hperm l₁ l₂ hp).symm
    have hlen : (runSchedules initObs
        [⟨h₁, .pathObj p, r, some l₁⟩, ⟨h₂, .str p, r, some l₂⟩]).emitter_for_watch.length
        = (ekeys (runSchedules initObs
            [⟨h₁, .pathObj p, r, some l₁⟩, ⟨h₂, .str p, r, some l₂⟩])).length :=
      (List.length_map _ _).symm
    rw [hlen, runSchedules_ekeys]
    simp only [List.map_cons, List.map_nil, List.foldl_cons, List.foldl_nil, hdd]
    show (setAdd _ (setAdd _ (ekeys initObs))).length = 1
    simp [setAdd, ekeys, initObs]

/-- Witness for C10's theorem: two schedule calls, one with a `Path`
object and one with the plain string, with permuted filter iterables,
leave exactly one Producer Registry entry. -/
theorem watch_init_normalises_inputs_witness :
    (([1, 2] : List Nat).Perm [2, 1])
    ∧ (runSchedules initObs
        [⟨5, .pathObj "/tmp/a", false, some [1, 2]⟩,
         ⟨6, .str "/tmp/a", false, some [2, 1]⟩]).emitter_for_watch.length = 1 :=
  ⟨by decide,
   (watch_init_normalises_inputs "/tmp/a" false none).2.2.2.2.2.2
     5 6 [1, 2] [2, 1] (by decide)⟩

/-- C3 counterexample: on a running observer whose emitter start raises,
`schedule` propagates the failure (the claim's premise), yet the handler
remains attached to the descriptor in the Handler Registry — refuting the
claim's "the handler is not left attached to the descriptor". -/
theorem schedule_start_failure_leaves_handler_cx :
    (schedule true initObsAlive 7 (.str "/tmp/x") false none).isRaised = true
    ∧ 7 ∈ regOf (schedule true initObsAlive 7 (.str "/tmp/x") false none).state.handlers
        (ObservedWatch.init (.str "/tmp/x") false none) := by
  constructor <;> decide

/-- C3 amended: if starting the newly constructed Producer raises during
`schedule` on a running observer, the failure propagates; the Producer
Registry, the Active Watch Set and the emitter set are unchanged (the
Producer was never registered, the descriptor never added), but the
handler remains attached to the descriptor in the Handler Registry — the
handler attachment performed before the start attempt is not rolled
back. -/
theorem schedule_start_failure_rollback_amended (s : ObsState) (h : Nat)
    (p : PyPath) (r : Bool) (f : Option (List Nat)) (halive : s.alive = true)
    (hnone : dget s.emitter_for_watch (ObservedWatch.init p r f) = none) :
    (schedule true s h p r f).isRaised = true
    ∧ (schedule true s h p r f).state.emitter_for_watch = s.emitter_for_watch
    ∧ (schedule true s h p r f).state.watches = s.watches
    ∧ (schedule true s h p r f).state.emitters = s.emitters
    ∧ h ∈ regOf (schedule true s h p r f).state.handlers (ObservedWatch.init p r f) := by
  rw [schedule_raised_eq s h p r f halive hnone]
  exact ⟨rfl, rfl, rfl, rfl, mem_regOf_addHandler s.handlers h (ObservedWatch.init p r f)⟩

/-- Witness for C3's amended theorem on a fresh running observer. -/
theorem schedule_start_failure_rollback_amended_witness :
    initObsAlive.alive = true
    ∧ 9 ∈ regOf (schedule true initObsAlive 9 (.str "/w") false none).state.handlers
        (ObservedWatch.init (.str "/w") false none) :=
  ⟨rfl,
   (schedule_start_failure_rollback_amended initObsAlive 9 (.str "/w") false none
      rfl (by decide)).2.2.2.2⟩

/-- C5 counterexample: schedule one watch on a stopped observer, then call
`start()` with the Producer's start raising.  The rollback removes the
Producer Registry entry but leaves the descriptor in the Active Watch Set,
so "in the Active Watch Set iff in the Producer Registry" fails after this
public `start` call. -/
theorem start_rollback_breaks_watch_invariant_cx :
    (startObserver (fun _ => true)
        (schedule false initObs 7 (.str "/tmp/x") false none).state).isRaised = true
    ∧ ObservedWatch.init (.str "/tmp/x") false none ∈
        ((startObserver (fun _ => true)
          (schedule false initObs 7 (.str "/tmp/x") false none).state).state).watches
    ∧ dget ((startObserver (fun _ => true)
          (schedule false initObs 7 (.str "/tmp/x") false none).state).state).emitter_for_watch
        (ObservedWatch.init (.str "/tmp/x") false none) = none := by
  refine ⟨?_, ?_, ?_⟩ <;> decide

/-- C5 amended: for an observer state satisfying the invariant (and the
structural well-formedness its own operations maintain), the invariant "a
descriptor is in the Active Watch Set iff it has a Producer Registry
entry" is preserved by `schedule` (both outcomes), `unschedule` (both
outcomes), `unschedule_all`, and a `start` that returns normally — but
not by `start`'s rollback path, where the failed Producer's descriptor
stays in the Active Watch Set with no registry entry (see the
counterexample). -/
theorem watchset_registry_invariant_amended (s : ObsState) (hI : InvW s)
    (hWF : WFObs s) :
    (∀ (sf : Bool) (h : Nat) (p : PyPath) (r : Bool) (f : Option (List Nat)),
        InvW (schedule sf s h p r f).state)
    ∧ (∀ w, InvW (unschedule s w).state)
    ∧ InvW (unscheduleAll s)
    ∧ (∀ (failing : Nat → Bool) (s1 : ObsState),
        startObserver failing s = .ok s1 → InvW s1) :=
  ⟨fun sf h p r f => invW_schedule hI sf h p r f,
   fun w => invW_unschedule hI hWF w,
   invW_unscheduleAll s,
   fun failing _ hok => invW_start_ok hI failing hok⟩

/-- Witness for C5's amended theorem on a fresh observer. -/
theorem watchset_registry_invariant_amended_witness :
    InvW (schedule false initObs 3 (.str "/a") false none).state :=
  (watchset_registry_invariant_amended initObs
    (fun w => by simp [initObs, dget])
    (fun w em hd => by simp [initObs, dget] at hd)).1 false 3 (.str "/a") false none

/-- C2 counterexample: the queue read performed by
`BaseObserver.dispatch_events` is `event_queue.get(block=True)` — no
timeout is passed — so on an empty queue the read blocks until an entry
arrives and `queue.Empty` is never signalled, refuting the claim that an
empty-result condition is signalled once the engine's configured timeout
elapses. -/
theorem dispatch_get_never_raises_empty_cx :
    dispatchEventsGet emptyEventQueue = GetResult.blocksForever
    ∧ dispatchEventsGet emptyEventQueue ≠ GetResult.emptyExc := by
  constructor <;> decide

/-- C2 amended: the consumer's queue read blocks indefinitely (no timeout
is passed, so `queue.Empty` is never raised by it on an empty queue);
`stop()` nonetheless completes within one further loop iteration: it
lowers the keep-running flag and pushes the stop sentinel with
`put_nowait`, which the engine's unbounded queue always accepts, so a
loop at its top exits at once and a read blocked on the empty queue is
woken by the sentinel, after which the loop observes the lowered flag and
exits. -/
theorem stop_completes_via_sentinel_amended (s : LoopState)
    (beh : Nat → List (ObservedWatch × List Nat) → List (ObservedWatch × List Nat))
    (q : SRQueue QEntry) :
    (q.items = [] → q.get true none = GetResult.blocksForever)
    ∧ (q.maxsize = 0 → q.putNowait QEntry.stopEvent = .ok (q.put QEntry.stopEvent))
    ∧ (stopDispatcher s).keep = false
    ∧ loopStep beh (stopDispatcher s) = .exited (stopDispatcher s)
    ∧ (s.q.items = [] → s.q.maxsize = 0 → s.q.lastItem ≠ some QEntry.stopEvent →
        (stopDispatcher s).q.items = [QEntry.stopEvent]
        ∧ ∃ s2, wakeDispatch beh (stopDispatcher s) = .next s2
            ∧ loopStep beh s2 = .exited s2) := by
  refine ⟨?_, ?_, rfl, ?_, ?_⟩
  · intro h
    simp [SRQueue.get, h]
  · intro h
    simp [SRQueue.putNowait, h]
  · simp [loopStep, stopDispatcher]
  · intro h0 h1 h2
    have hq : (stopDispatcher s).q =
        { s.q with items := [QEntry.stopEvent], lastItem := some QEntry.stopEvent } := by
      simp [stopDispatcher, SRQueue.putNowait, SRQueue.put, h0, h1, h2]
    refine ⟨by rw [hq], ⟨{ stopDispatcher s with
        q := { s.q with items := [], lastItem := some QEntry.stopEvent } }, ?_, ?_⟩⟩
    · rw [wakeDispatch, hq]
      rfl
    · rfl

/-- Witness for C2's amended theorem: stopping a consumer blocked on the
fresh empty queue plants the sentinel and the loop exits after waking. -/
theorem stop_completes_via_sentinel_witness :
    emptyEventQueue.items = []
    ∧ ((stopDispatcher ⟨[], emptyEventQueue, true, 0⟩).q.items = [QEntry.stopEvent]
        ∧ ∃ s2, wakeDispatch (fun _ m => m) (stopDispatcher ⟨[], emptyEventQueue, true, 0⟩)
              = .next s2
            ∧ loopStep (fun _ m => m) s2 = .exited s2) :=
  ⟨rfl,
   (stop_completes_via_sentinel_amended ⟨[], emptyEventQueue, true, 0⟩ (fun _ m => m)
      emptyEventQueue).2.2.2.2 rfl rfl (by decide)⟩

/-- C1: when the consumer loop dispatches a real `(event, watch)` entry,
with arbitrary handler behaviours `beh` (which may remove or add
registrations mid-dispatch): a handler is invoked iff it is in the
loop-entry snapshot and is still registered — the registration is
re-checked immediately before each call — in the registry state reached
just before its turn (first conjunct, both directions); every invocation
passes the dispatched event (second conjunct); a handler whose
registration was removed by the time the loop reaches it — e.g. removed
by another handler earlier in the same dispatch — is not invoked (third
conjunct); calls follow the snapshot's iteration order with no handler
called twice (fourth conjunct); and after the calls the entry is marked
processed exactly once (fifth conjunct). -/
theorem dispatch_rechecks_registration
    (beh : Nat → List (ObservedWatch × List Nat) → List (ObservedWatch × List Nat))
    (ev : FSEvent) (w : ObservedWatch) (hs : List (ObservedWatch × List Nat))
    (hnd : (regOf hs w).Nodup) :
    (∀ b : Nat, (b, ev) ∈ (dispatchEvents beh (.entry ev w) hs).1 ↔
        ∃ l₁ l₂, regOf hs w = l₁ ++ b :: l₂
          ∧ b ∈ regOf (dispatchLoop beh w l₁ hs).2 w)
    ∧ (∀ p, p ∈ (dispatchEvents beh (.entry ev w) hs).1 → p.2 = ev)
    ∧ (∀ (b : Nat) (l₁ l₂ : List Nat), regOf hs w = l₁ ++ b :: l₂ →
        b ∉ regOf (dispatchLoop beh w l₁ hs).2 w →
        (b, ev) ∉ (dispatchEvents beh (.entry ev w) hs).1)
    ∧ ((dispatchEvents beh (.entry ev w) hs).1.map Prod.fst).Sublist (regOf hs w)
    ∧ (dispatchEvents beh (.entry ev w) hs).2.2 = 1 := by
  have hD : (dispatchEvents beh (.entry ev w) hs).1
      = (dispatchLoop beh w (regOf hs w) hs).1.map (fun h => (h, ev)) := rfl
  have hmem : ∀ b : Nat, (b, ev) ∈ (dispatchEvents beh (.entry ev w) hs).1 ↔
      b ∈ (dispatchLoop beh w (regOf hs w) hs).1 := by
    intro b
    rw [hD, List.mem_map]
    constructor
    · rintro ⟨a, ha, he⟩
      rcases Prod.mk.injEq .. ▸ he with ⟨rfl, _⟩
      exact ha
    · intro hb
      exact ⟨b, hb, rfl⟩
  refine ⟨?_, ?_, ?_, ?_, rfl⟩
  · intro b
    rw [hmem b]
    exact dispatchLoop_mem_iff beh w (regOf hs w) hs b
  · intro p hp
    rw [hD, List.mem_map] at hp
    rcases hp with ⟨a, _, he⟩
    rw [← he]
  · intro b l₁ l₂ hl hnr hb
    rcases (dispatchLoop_mem_iff beh w (regOf hs w) hs b).1 ((hmem b).1 hb)
      with ⟨l₁x, l₂x, hlx, hrx⟩
    have hnd1 : (l₁ ++ b :: l₂).Nodup := hl ▸ hnd
    have hb1 : b ∉ l₁ := by
      rcases List.nodup_append.1 hnd1 with ⟨_, _, hdisj⟩
      intro hbl
      exact hdisj hbl (List.mem_cons_self b l₂)
    have hnd2 : (l₁x ++ b :: l₂x).Nodup := hlx ▸ hnd
    have hb2 : b ∉ l₁x := by
      rcases List.nodup_append.1 hnd2 with ⟨_, _, hdisj⟩
      intro hbl
      exact hdisj hbl (List.mem_cons_self b l₂x)
    rcases append_cons_inj_of_not_mem (hl.symm.trans hlx) hb1 hb2 with ⟨rfl, rfl⟩
    exact hnr hrx
  · rw [hD, List.map_map]
    have : (Prod.fst ∘ fun h : Nat => (h, ev)) = id := rfl
    rw [this, List.map_id]
    exact dispatchLoop_sublist beh w (regOf hs w) hs

/-- Witness for C1's theorem: handler 1's callback removes handler 2's
registration for the same watch, and handler 2 is then not invoked with
the event being dispatched. -/
theorem dispatch_rechecks_registration_witness :
    ((regOf [(ObservedWatch.init (.str "/w") false none, [1, 2])]
        (ObservedWatch.init (.str "/w") false none)).Nodup)
    ∧ ((2 : Nat), (⟨0, "/w/f"⟩ : FSEvent)) ∉
        (dispatchEvents
          (fun h m => if h = 1 then
              dput m (ObservedWatch.init (.str "/w") false none)
                (setRemove 2 (regOf m (ObservedWatch.init (.str "/w") false none)))
            else m)
          (.entry ⟨0, "/w/f"⟩ (ObservedWatch.init (.str "/w") false none))
          [(ObservedWatch.init (.str "/w") false none, [1, 2])]).1 :=
  ⟨by decide,
   (dispatch_rechecks_registration
      (fun h m => if h = 1 then
          dput m (ObservedWatch.init (.str "/w") false none)
            (setRemove 2 (regOf m (ObservedWatch.init (.str "/w") false none)))
        else m)
      ⟨0, "/w/f"⟩ (ObservedWatch.init (.str "/w") false none)
      [(ObservedWatch.init (.str "/w") false none, [1, 2])]
      (by decide)).2.2.1 2 [1] [] (by decide) (by decide)⟩

/-- C4: over any sequence of `schedule` calls, the Producer Registry holds
exactly one entry per structurally distinct scheduled descriptor — its
size equals the number of distinct descriptors, not the number of calls —
and two `schedule` calls whose descriptors agree on
`(path, recursive, event_filter)` return equal descriptors. -/
theorem producer_registry_counts_distinct (cs : List SchedCall) :
    ((runSchedules initObs cs).emitter_for_watch.length
        = (cs.map SchedCall.descr).dedup.length)
    ∧ (∀ w, w ∈ ekeys (runSchedules initObs cs) ↔ w ∈ cs.map SchedCall.descr)
    ∧ (∀ c ∈ cs, (ekeys (runSchedules initObs cs)).count c.descr = 1)
    ∧ (∀ (s1 s2 : ObsState) (c₁ c₂ : SchedCall), c₁.descr = c₂.descr →
        (schedule false s1 c₁.handler c₁.path c₁.recursive c₁.event_filter).watchOf
          = (schedule false s2 c₂.handler c₂.path c₂.recursive c₂.event_filter).watchOf) := by
  have hkeys : ekeys (runSchedules initObs cs)
      = List.foldl (fun acc d => setAdd d acc) [] (cs.map SchedCall.descr) := by
    rw [runSchedules_ekeys]
    rfl
  have hmem : ∀ w, w ∈ ekeys (runSchedules initObs cs) ↔ w ∈ cs.map SchedCall.descr := by
    intro w
    rw [hkeys, mem_foldl_setAdd]
    simp
  have hnd : (ekeys (runSchedules initObs cs)).Nodup := by
    rw [hkeys]
    exact nodup_foldl_setAdd _ List.nodup_nil
  refine ⟨?_, hmem, ?_, ?_⟩
  · rw [show (runSchedules initObs cs).emitter_for_watch.length
        = (ekeys (runSchedules initObs cs)).length from (List.length_map _ _).symm,
      hkeys, length_foldl_setAdd_nil]
  · intro c hc
    exact List.count_eq_one_of_mem hnd ((hmem c.descr).2 (List.mem_map_of_mem _ hc))
  · intro s1 s2 c₁ c₂ hdescr
    rw [schedule_false_watchOf, schedule_false_watchOf]
    show some c₁.descr = some c₂.descr
    rw [hdescr]

/-- Witness for C4's theorem: two `schedule` calls with equal descriptors
leave a registry in which that descriptor has exactly one entry. -/
theorem producer_registry_counts_distinct_witness :
    ((⟨1, .str "/a", false, none⟩ : SchedCall)
        ∈ [(⟨1, .str "/a", false, none⟩ : SchedCall), ⟨2, .str "/a", false, none⟩])
    ∧ (ekeys (runSchedules initObs
          [⟨1, .str "/a", false, none⟩, ⟨2, .str "/a", false, none⟩])).count
        (SchedCall.descr ⟨1, .str "/a", false, none⟩) = 1 :=
  ⟨by decide,
   (producer_registry_counts_distinct
      [⟨1, .str "/a", false, none⟩, ⟨2, .str "/a", false, none⟩]).2.2.1
     ⟨1, .str "/a", false, none⟩ (by decide)⟩

/-- C8 counterexample: schedule watch `/w` with handler H1 = 2, then with
handler H2 = 1, and dispatch one event for the watch.  The handlers live
in a Python `set`, whose iteration order is its hash-table order, not
registration order (for small naturals CPython iterates them in numeric
order, as this embedding does); the delivered order is H2 before H1,
refuting "invokes H1 before H2". -/
theorem handler_order_not_registration_order_cx :
    (dispatchEvents (fun _ m => m)
        (.entry ⟨0, "/w/f"⟩ (ObservedWatch.init (.str "/w") false none))
        (runSchedules initObs
          [⟨2, .str "/w", false, none⟩, ⟨1, .str "/w", false, none⟩]).handlers).1
      = [(1, ⟨0, "/w/f"⟩), (2, ⟨0, "/w/f"⟩)]
    ∧ (dispatchEvents (fun _ m => m)
        (.entry ⟨0, "/w/f"⟩ (ObservedWatch.init (.str "/w") false none))
        (runSchedules initObs
          [⟨2, .str "/w", false, none⟩, ⟨1, .str "/w", false, none⟩]).handlers).1
      ≠ [(2, ⟨0, "/w/f"⟩), (1, ⟨0, "/w/f"⟩)] := by
  constructor <;> decide

/-- C8 amended: delivering one event for a watch invokes every handler
registered for it exactly once with that event, in the handler set's
iteration order — which is the set's canonical (hash-table) order, not
the order in which the handlers were scheduled, so H1-before-H2 holds
only when the set order happens to agree with registration order.
Scheduling the watch with handlers H1 then H2 produces the handler set
`fsInsert H2 (fsInsert H1 [])`, whose iteration order is value order
regardless of which handler was scheduled first. -/
theorem dispatch_order_is_set_iteration_order
    (hs : List (ObservedWatch × List Nat)) (w : ObservedWatch) (ev : FSEvent) :
    ((dispatchEvents (fun _ m => m) (.entry ev w) hs).1
        = (regOf hs w).map (fun h => (h, ev)))
    ∧ ((regOf hs w).Nodup → ∀ h ∈ regOf hs w,
        ((dispatchEvents (fun _ m => m) (.entry ev w) hs).1.map Prod.fst).count h = 1)
    ∧ (∀ (h₁ h₂ : Nat) (p : PyPath) (r : Bool) (f : Option (List Nat)),
        regOf (runSchedules initObs [⟨h₁, p, r, f⟩, ⟨h₂, p, r, f⟩]).handlers
            (ObservedWatch.init p r f)
          = fsInsert h₂ (fsInsert h₁ [])) := by
  have hcalls : (dispatchEvents (fun _ m => m) (.entry ev w) hs).1
      = (regOf hs w).map (fun h => (h, ev)) := by
    show ((dispatchLoop (fun _ m => m) w (regOf hs w) hs).1.map fun h => (h, ev)) = _
    rw [dispatchLoop_id_calls, List.filter_eq_self.2 (fun a ha => by simpa using ha)]
  refine ⟨hcalls, ?_, ?_⟩
  · intro hnd h hh
    rw [hcalls, List.map_map,
      show (Prod.fst ∘ fun h : Nat => (h, ev)) = id from rfl, List.map_id]
    exact List.count_eq_one_of_mem hnd hh
  · intro h₁ h₂ p r f
    simp [runSchedules, schedule, SchedResult.state, addHandlerForWatch, addEmitter,
      regOf, dget, dput, setAdd, initObs]

/-- Witness for C8's amended theorem: with the watch scheduled under
handler 2 and then handler 1, the stored handler set is the canonical set
`fsInsert 1 (fsInsert 2 [])`, and each handler is called exactly once. -/
theorem dispatch_order_is_set_iteration_order_witness :
    (regOf (runSchedules initObs
        [⟨2, .str "/w", false, none⟩, ⟨1, .str "/w", false, none⟩]).handlers
        (ObservedWatch.init (.str "/w") false none)
      = fsInsert 1 (fsInsert 2 []))
    ∧ ((dispatchEvents (fun _ m => m)
          (.entry ⟨0, "x"⟩ (ObservedWatch.init (.str "/w") false none))
          [(ObservedWatch.init (.str "/w") false none, [1, 2])]).1.map Prod.fst).count 1 = 1 :=
  ⟨(dispatch_order_is_set_iteration_order
      [(ObservedWatch.init (.str "/w") false none, [1, 2])]
      (ObservedWatch.init (.str "/w") false none) ⟨0, "x"⟩).2.2
      2 1 (.str "/w") false none,
   (dispatch_order_is_set_iteration_order
      [(ObservedWatch.init (.str "/w") false none, [1, 2])]
      (ObservedWatch.init (.str "/w") false none) ⟨0, "x"⟩).2.1
      (by decide) 1 (by decide)⟩

end Watchdog
